import Mathlib

/-!
Verification of the mac-changer utility (src/mac_changer.py) against its
natural-language specification.

Python strings are embedded as lists of characters (`PyStr`).  Each function
of the program that the claims mention is translated into an executable Lean
definition; shell execution and the backup file become explicit parameters
(an executor function, a file-state value).  The claims are then settled as
theorems about those definitions.
-/

/-- Embedding of a Python `str` as a list of characters. -/
abbrev PyStr := List Char

/-- Conversion of a Lean string literal to the embedded string type. -/
def str (s : String) : PyStr := s.data

/-- Python `str.upper` (ASCII case mapping, which covers MAC-address text). -/
def upper (s : PyStr) : PyStr := s.map Char.toUpper

/-- Python `str.lower` (ASCII case mapping, which covers MAC-address text). -/
def lower (s : PyStr) : PyStr := s.map Char.toLower

/-- Python `s.split(":")`: splits at every colon; `"".split(":") = [""]`. -/
def splitColon : List Char → List (List Char)
  | [] => [[]]
  | c :: rest =>
    if c = ':' then [] :: splitColon rest
    else
      match splitColon rest with
      | [] => [[c]]
      | p :: ps => (c :: p) :: ps

/-- Python `":".join(parts)`. -/
def joinColon : List (List Char) → List Char
  | [] => []
  | [p] => p
  | p :: ps => p ++ ':' :: joinColon ps

/-- The one-step gluing function underlying `joinColon`, convenient for
stating lemmas about partial joins. -/
def glueColon (p acc : List Char) : List Char := p ++ ':' :: acc

theorem splitColon_ne_nil (l : List Char) : splitColon l ≠ [] := by
  cases l with
  | nil => simp [splitColon]
  | cons c rest =>
    by_cases h : c = ':'
    · simp [splitColon, h]
    · simp only [splitColon, if_neg h]
      cases splitColon rest <;> simp

theorem splitColon_append (q l : List Char) (hd : List Char) (tl : List (List Char))
    (hq : ':' ∉ q) (h : splitColon l = hd :: tl) :
    splitColon (q ++ l) = (q ++ hd) :: tl := by
  induction q with
  | nil => simpa using h
  | cons c q ih =>
    have hc : c ≠ ':' := by
      intro hc
      exact hq (by simp [hc])
    have ih' : splitColon (q.append l) = (q ++ hd) :: tl :=
      ih (fun hm => hq (List.mem_cons_of_mem c hm))
    simp only [List.cons_append, splitColon, if_neg hc, ih']

theorem joinColon_cons_ne (p : List Char) (qs : List (List Char)) (h : qs ≠ []) :
    joinColon (p :: qs) = p ++ ':' :: joinColon qs := by
  cases qs with
  | nil => exact absurd rfl h
  | cons q qs => rfl

theorem joinColon_splitColon (l : List Char) : joinColon (splitColon l) = l := by
  induction l with
  | nil => rfl
  | cons c rest ih =>
    by_cases h : c = ':'
    · subst h
      rw [show splitColon (':' :: rest) = [] :: splitColon rest from by simp [splitColon]]
      rw [joinColon_cons_ne _ _ (splitColon_ne_nil rest)]
      simp [ih]
    · simp only [splitColon, if_neg h]
      cases hs : splitColon rest with
      | nil => exact absurd hs (splitColon_ne_nil rest)
      | cons p ps =>
        rw [hs] at ih
        cases ps with
        | nil =>
          simp only [joinColon] at ih ⊢
          simp [ih]
        | cons p2 ps2 =>
          rw [joinColon_cons_ne _ _ (by simp)] at ih
          rw [joinColon_cons_ne _ _ (by simp)]
          simp only [List.cons_append]
          rw [ih]

theorem splitColon_joinColon (qs : List (List Char)) (h : qs ≠ [])
    (hq : ∀ q ∈ qs, ':' ∉ q) : splitColon (joinColon qs) = qs := by
  induction qs with
  | nil => exact absurd rfl h
  | cons q qs ih =>
    cases qs with
    | nil =>
      have hbase : splitColon ([] : List Char) = [] :: [] := by simp [splitColon]
      have := splitColon_append q [] [] [] (hq q (by simp)) hbase
      simpa using this
    | cons q2 qs2 =>
      rw [joinColon_cons_ne _ _ (by simp)]
      have hrec := ih (by simp) (fun x hx => hq x (List.mem_cons_of_mem q hx))
      have hsc : splitColon (':' :: joinColon (q2 :: qs2)) = [] :: (q2 :: qs2) := by
        simp [splitColon, hrec]
      have := splitColon_append q (':' :: joinColon (q2 :: qs2)) [] (q2 :: qs2)
        (hq q (by simp)) hsc
      simpa using this

theorem upper_joinColon (qs : List (List Char)) :
    upper (joinColon qs) = joinColon (qs.map upper) := by
  induction qs with
  | nil => rfl
  | cons q qs ih =>
    cases qs with
    | nil => rfl
    | cons q2 qs2 =>
      rw [joinColon_cons_ne q (q2 :: qs2) (by simp), List.map_cons,
        joinColon_cons_ne (upper q) ((q2 :: qs2).map upper) (by simp), ← ih]
      have hcolon : Char.toUpper ':' = ':' := by decide
      simp [upper, hcolon]

theorem joinColon_eq_foldr (ps : List (List Char)) (last : List Char) :
    joinColon (ps ++ [last]) = ps.foldr glueColon last := by
  induction ps with
  | nil => rfl
  | cons p ps ih =>
    rw [List.cons_append, joinColon_cons_ne _ _ (by simp), ih]
    rfl

theorem foldr_glue_append (ps : List (List Char)) (base ext : List Char) :
    ps.foldr glueColon base ++ ext = ps.foldr glueColon (base ++ ext) := by
  induction ps with
  | nil => rfl
  | cons p ps ih => simp [glueColon, List.append_assoc, ih]

theorem foldr_glue_ne_nil (ps : List (List Char)) (base : List Char) (h : base ≠ []) :
    ps.foldr glueColon base ≠ [] := by
  cases ps with
  | nil => exact h
  | cons p ps => simp [glueColon]

/-- The regex character class `[0-9A-Fa-f]` of the CLI validation pattern. -/
def isHexDigitPy (c : Char) : Bool :=
  (('0' ≤ c && c ≤ '9') || ('A' ≤ c && c ≤ 'F') || ('a' ≤ c && c ≤ 'f'))

/-- Matches `[0-9A-Fa-f]{2}` and returns the remaining input. -/
def matchHexPair : List Char → Option (List Char)
  | a :: b :: rest => if isHexDigitPy a && isHexDigitPy b then some rest else none
  | _ => none

/-- Matches `[0-9A-Fa-f]{2}:` and returns the remaining input. -/
def matchHexPairColon (l : List Char) : Option (List Char) :=
  match matchHexPair l with
  | some (c :: rest) => if c = ':' then some rest else none
  | _ => none

/-- Matches `([0-9A-Fa-f]{2}:){n}` and returns the remaining input. -/
def matchRepPairColon : Nat → List Char → Option (List Char)
  | 0, l => some l
  | n + 1, l =>
    match matchHexPairColon l with
    | some r => matchRepPairColon n r
    | none => none

/-- Runs the body of the CLI pattern `([0-9A-Fa-f]{2}:){5}[0-9A-Fa-f]{2}`
from the start of the input, returning the unconsumed remainder. -/
def regexMacMatch (l : List Char) : Option (List Char) :=
  match matchRepPairColon 5 l with
  | some r => matchHexPair r
  | none => none

/-- The CLI validation of a user-supplied address
(`re.match(r"^([0-9A-Fa-f]{2}:){5}[0-9A-Fa-f]{2}$", args.mac)`).
Python's `$` succeeds at the end of the string or just before a single
trailing newline, so both remainders are accepted. -/
def valid_mac (s : PyStr) : Bool :=
  match regexMacMatch s with
  | some rest => rest == [] || rest == [Char.ofNat 10]
  | none => false

/-- Removes one trailing newline when present; used to state what
`valid_mac` accepts. -/
def stripTrailingNl (s : PyStr) : PyStr :=
  if s.getLast? = some (Char.ofNat 10) then s.dropLast else s

/-- A two-character string of hex digits. -/
def isHexPairSpec (p : List Char) : Bool :=
  match p with
  | [a, b] => isHexDigitPy a && isHexDigitPy b
  | _ => false

/-- Modelled from the spec's words: an address consists of "exactly six
2-digit hex pairs joined by colons". -/
def canonical_mac_spec (s : PyStr) : Bool :=
  ((splitColon s).length == 6) && (splitColon s).all isHexPairSpec

/-- The static vendor table `VENDOR_PREFIXES` of mac_changer.py. -/
def VENDOR_PREFIXES : List (PyStr × PyStr) :=
  [(str "00:14:22", str "Dell"), (str "00:40:96", str "Cisco"), (str "AC:DE:48", str "Private")]

/-- `list(VENDOR_PREFIXES.keys())`. -/
def vendorKeys : List PyStr := VENDOR_PREFIXES.map Prod.fst

/-- The prefix computed by `get_vendor`:
`":".join(mac.upper().split(":")[:3])`. -/
def macPrefix3 (mac : PyStr) : PyStr :=
  joinColon ((splitColon (upper mac)).take 3)

/-- `get_vendor(mac)`: dictionary lookup of the 3-octet uppercase prefix,
defaulting to "Unknown". -/
def get_vendor (mac : PyStr) : PyStr :=
  match VENDOR_PREFIXES.find? (fun p => p.1 == macPrefix3 mac) with
  | some p => p.2
  | none => str "Unknown"

/-- The lowercase hex digit at index `k` (used by Python's `format(n, "02x")`). -/
def hexDigitChar (k : Nat) : Char := (str "0123456789abcdef").getD k '0'

/-- Python `f"{n:02x}"` for `0 <= n <= 255`: exactly two lowercase hex digits. -/
def hex2 (n : Fin 256) : PyStr := [hexDigitChar (n.val / 16), hexDigitChar (n.val % 16)]

/-- `random_mac()`: one random vendor key, split at colons, extended with
three random octets rendered as two-digit lowercase hex, joined by colons.
The random draws (`choice`, three `randint(0, 255)`) are explicit inputs. -/
def random_mac (ki : Fin vendorKeys.length) (r1 r2 r3 : Fin 256) : PyStr :=
  joinColon (splitColon (vendorKeys.get ki) ++ [hex2 r1, hex2 r2, hex2 r3])

/-- Outcome of `subprocess.call(cmd, shell=True)`: the shell ran and
returned an exit code (which `change_mac` ignores), or spawning raised
an exception. -/
inductive ExecOutcome
  | exited (code : Int)
  | raised
deriving DecidableEq

/-- Whether an execution outcome is a raised exception. -/
def ExecOutcome.isRaised : ExecOutcome → Bool
  | .raised => true
  | _ => false

/-- The three commands `change_mac` issues, in order (POSIX path when
`is_linux`, the ifconfig path otherwise). -/
def change_mac_cmds (is_linux : Bool) (interface new_mac : PyStr) : List PyStr :=
  [ if is_linux then str "ip link set " ++ interface ++ str " down"
    else str "ifconfig " ++ interface ++ str " down",
    if is_linux then str "ip link set " ++ interface ++ str " address " ++ new_mac
    else str "ifconfig " ++ interface ++ str " hw ether " ++ new_mac,
    if is_linux then str "ip link set " ++ interface ++ str " up"
    else str "ifconfig " ++ interface ++ str " up" ]

/-- `change_mac(interface, new_mac)`: runs the three commands with
`subprocess.call` inside a bare try/except and returns True unless an
exception was raised.  Exit codes are not inspected. -/
def change_mac (exec : PyStr → ExecOutcome) (is_linux : Bool)
    (interface new_mac : PyStr) : Bool :=
  (change_mac_cmds is_linux interface new_mac).all (fun c => !(exec c).isRaised)

/-- An executor on which every command exits with status 1. -/
def execExit1 : PyStr → ExecOutcome := fun _ => .exited 1

/-- An executor on which every command raises on spawn. -/
def execRaise : PyStr → ExecOutcome := fun _ => .raised

/-- The regeneration loop
`while mac.lower() == current.lower(): mac = random_mac()`, fed by the
stream of generated candidates (first element = the initial candidate).
`none` models exhausting the supplied randomness, i.e. a loop that never
exits. -/
def regen (current : PyStr) : List PyStr → Option PyStr
  | [] => none
  | m :: rest => if lower m = lower current then regen current rest else some m

/-- The CLI's MAC-format gate: `args.mac` absent passes, present must match
the validation pattern. -/
def macFormatOk : Option PyStr → Bool
  | some m => valid_mac m
  | none => true

/-- The initial candidate pool of the one-shot change:
`new_mac = args.mac if args.mac else random_mac()` followed by regeneration. -/
def initialPool : Option PyStr → List PyStr → List PyStr
  | some m, randoms => m :: randoms
  | none, randoms => randoms

/-- What the one-shot CLI path reports. -/
inductive OneShotMsg
  | invalidFormat
  | noCurrent
  | stuck
  | changedOk
  | changeFailed
deriving DecidableEq

/-- Result of the one-shot CLI path: the report, and the address passed to
`change_mac` (none when no mutation was attempted). -/
structure OneShotOut where
  msg : OneShotMsg
  applied : Option PyStr
deriving DecidableEq

/-- The one-shot change path of `cli()` (no --restore, no --interval):
validate `args.mac`, read the current address, pick a new address
(regenerating while it equals the current one case-insensitively), apply it
with `change_mac`, and report success or "MAC change failed". -/
def cli_oneshot (exec : PyStr → ExecOutcome) (is_linux : Bool) (interface : PyStr)
    (argsMac : Option PyStr) (current : Option PyStr) (randoms : List PyStr) :
    OneShotOut :=
  if macFormatOk argsMac then
    match current with
    | none => ⟨.noCurrent, none⟩
    | some cur =>
      match regen cur (initialPool argsMac randoms) with
      | none => ⟨.stuck, none⟩
      | some a =>
        if change_mac exec is_linux interface a then ⟨.changedOk, some a⟩
        else ⟨.changeFailed, some a⟩
  else ⟨.invalidFormat, none⟩

/-- The environment one tick of `rotate_mac` runs in: whether an interrupt
arrives at this tick, what `get_mac` returns, and the stream of
`random_mac` candidates available to the tick. -/
structure TickEnv where
  interrupt : Bool
  current : Option PyStr
  candidates : List PyStr

/-- How a (finitely observed) run of the rotation loop ends:
still `running`, `stopped` by KeyboardInterrupt (the only caught
exception), or terminated by an uncaught `error` — `current.lower()`
raising AttributeError when `get_mac` returned None. -/
inductive RotOutcome
  | running
  | stopped
  | error
deriving DecidableEq

/-- `rotate_mac`'s `while True` loop over a finite observation window of
tick environments.  An exhausted window means the loop is still running. -/
def rotate_run : List TickEnv → RotOutcome
  | [] => .running
  | e :: rest =>
    if e.interrupt then .stopped
    else
      match e.current with
      | none => .error
      | some cur =>
        match regen cur e.candidates with
        | none => .running
        | some _ => rotate_run rest

/-- One record of the backup file:
`{"original_mac": ..., "timestamp": ...}`. -/
structure BackupRec where
  original_mac : PyStr
  timestamp : PyStr
deriving DecidableEq

/-- The parsed backup mapping (a JSON object: unique keys, insertion order). -/
abbrev BackupData := List (PyStr × BackupRec)

/-- Python dict assignment `data[k] = v`: overwrite the existing entry in
place, or append a new one. -/
def dictSet : BackupData → PyStr → BackupRec → BackupData
  | [], k, v => [(k, v)]
  | p :: ds, k, v => if p.1 = k then (k, v) :: ds else p :: dictSet ds k v

/-- State of the backup file `mac_backup.json`: absent, unreadable or
unparsable (any load raises), or a parsed mapping. -/
inductive FileState
  | absent
  | corrupt
  | good (d : BackupData)
deriving DecidableEq

/-- The mapping a file state holds (empty when nothing can be loaded). -/
def fsData : FileState → BackupData
  | .good d => d
  | _ => []

/-- What `backup_mac` reports. -/
inductive BackupMsg
  | backedUp
  | backupFailed
deriving DecidableEq

/-- `backup_mac(interface, mac)`: a missing file is treated as an empty
mapping and the entry is written; a load/save exception is caught and
reported, leaving the file as it was. -/
def backup_mac (fs : FileState) (interface mac now : PyStr) : FileState × BackupMsg :=
  match fs with
  | .corrupt => (.corrupt, .backupFailed)
  | .absent => (.good (dictSet [] interface ⟨mac, now⟩), .backedUp)
  | .good d => (.good (dictSet d interface ⟨mac, now⟩), .backedUp)

/-- What `restore_mac` reports. -/
inductive RestoreMsg
  | restored (mac : PyStr)
  | noBackup
  | restoreFailed
deriving DecidableEq

/-- Result of `restore_mac`: the report, and the address passed to
`change_mac` (none when no mutation was attempted). -/
structure RestoreOut where
  msg : RestoreMsg
  mutated : Option PyStr
deriving DecidableEq

/-- `restore_mac(interface)`: opening/loading the file raises when it is
absent or corrupt — caught, reported as "Restore failed".  Otherwise the
interface key is looked up; a hit invokes `change_mac` with the stored
original address, a miss reports "No backup found". -/
def restore_mac (fs : FileState) (interface : PyStr) : RestoreOut :=
  match fs with
  | .absent => ⟨.restoreFailed, none⟩
  | .corrupt => ⟨.restoreFailed, none⟩
  | .good d =>
    match d.find? (fun q => q.1 == interface) with
    | some q => ⟨.restored q.2.original_mac, some q.2.original_mac⟩
    | none => ⟨.noBackup, none⟩

theorem find?_dictSet_self (d : BackupData) (k : PyStr) (v : BackupRec) :
    (dictSet d k v).find? (fun q => q.1 == k) = some (k, v) := by
  induction d with
  | nil => simp [dictSet, List.find?]
  | cons p ds ih =>
    by_cases h : p.1 = k
    · simp [dictSet, if_pos h, List.find?]
    · simp only [dictSet, if_neg h]
      rw [List.find?_cons_of_neg _ (by simp [h])]
      exact ih

theorem find?_dictSet_other (d : BackupData) (k j : PyStr) (v : BackupRec)
    (hjk : j ≠ k) :
    (dictSet d k v).find? (fun q => q.1 == j) = d.find? (fun q => q.1 == j) := by
  induction d with
  | nil =>
    simp only [dictSet]
    rw [List.find?_cons_of_neg _ (by simp [Ne.symm hjk])]
  | cons p ds ih =>
    by_cases h : p.1 = k
    · simp only [dictSet, if_pos h]
      rw [List.find?_cons_of_neg _ (by simp [Ne.symm hjk])]
      by_cases hpj : p.1 = j
      · exact absurd (hpj ▸ h) hjk
      · rw [List.find?_cons_of_neg _ (by simp [hpj])]
    · simp only [dictSet, if_neg h]
      by_cases hpj : p.1 = j
      · rw [List.find?_cons_of_pos _ (by simp [hpj]),
          List.find?_cons_of_pos _ (by simp [hpj])]
      · rw [List.find?_cons_of_neg _ (by simp [hpj]),
          List.find?_cons_of_neg _ (by simp [hpj])]
        exact ih

theorem filter_key_nil (d : BackupData) (k : PyStr)
    (h : k ∉ d.map Prod.fst) : d.filter (fun q => q.1 == k) = [] := by
  induction d with
  | nil => rfl
  | cons p ds ih =>
    simp only [List.map_cons, List.mem_cons, not_or] at h
    have hpk : ¬(p.1 = k) := fun hc => h.1 hc.symm
    rw [List.filter_cons_of_neg (by simp [hpk])]
    exact ih h.2

theorem filter_dictSet_self (d : BackupData) (k : PyStr) (v : BackupRec)
    (hnd : (d.map Prod.fst).Nodup) :
    (dictSet d k v).filter (fun q => q.1 == k) = [(k, v)] := by
  induction d with
  | nil => simp [dictSet, List.filter]
  | cons p ds ih =>
    simp only [List.map_cons, List.nodup_cons] at hnd
    by_cases h : p.1 = k
    · simp only [dictSet, if_pos h]
      rw [List.filter_cons_of_pos (by simp)]
      rw [filter_key_nil ds k (h ▸ hnd.1)]
    · simp only [dictSet, if_neg h]
      rw [List.filter_cons_of_neg (by simp [h])]
      exact ih hnd.2

theorem mem_keys_dictSet (d : BackupData) (k j : PyStr) (v : BackupRec)
    (h : j ∈ (dictSet d k v).map Prod.fst) : j = k ∨ j ∈ d.map Prod.fst := by
  induction d with
  | nil => simpa [dictSet] using h
  | cons p ds ih =>
    by_cases hpk : p.1 = k
    · simp only [dictSet, if_pos hpk] at h
      simp only [List.map_cons, List.mem_cons] at h ⊢
      rcases h with h | h
      · exact Or.inl h
      · exact Or.inr (Or.inr h)
    · simp only [dictSet, if_neg hpk] at h
      simp only [List.map_cons, List.mem_cons] at h ⊢
      rcases h with h | h
      · exact Or.inr (Or.inl h)
      · rcases ih h with h2 | h2
        · exact Or.inl h2
        · exact Or.inr (Or.inr h2)

theorem nodup_keys_dictSet (d : BackupData) (k : PyStr) (v : BackupRec)
    (h : (d.map Prod.fst).Nodup) : ((dictSet d k v).map Prod.fst).Nodup := by
  induction d with
  | nil => simp [dictSet]
  | cons p ds ih =>
    simp only [List.map_cons, List.nodup_cons] at h
    by_cases hpk : p.1 = k
    · simp only [dictSet, if_pos hpk, List.map_cons, List.nodup_cons]
      exact ⟨hpk ▸ h.1, h.2⟩
    · simp only [dictSet, if_neg hpk, List.map_cons, List.nodup_cons]
      refine ⟨fun hm => ?_, ih h.2⟩
      rcases mem_keys_dictSet ds k p.1 v hm with h2 | h2
      · exact hpk h2
      · exact h.1 h2

/-- C1 counterexample: on an executor where every command exits with
status 1 (non-zero, nothing raised), `change_mac` still returns True, so a
non-zero exit status is not reported as a failure, contrary to the claim. -/
theorem c1_counterexample :
    execExit1 (str "ip link set eth0 address 00:11:22:33:44:55") = ExecOutcome.exited 1 ∧
    change_mac execExit1 true (str "eth0") (str "00:11:22:33:44:55") = true :=
  ⟨rfl, by decide⟩

/-- C1 amended: `change_mac` returns an unsuccessful result exactly when one
of its three commands raises on spawn; a command that merely exits with a
non-zero status is ignored and does not prevent success.  (The CLI prints
"MAC change failed" precisely when `change_mac` returns False.) -/
theorem c1_amended (exec : PyStr → ExecOutcome) (is_linux : Bool)
    (interface new_mac : PyStr) :
    change_mac exec is_linux interface new_mac = false ↔
      (change_mac_cmds is_linux interface new_mac).any
        (fun c => (exec c).isRaised) = true := by
  rw [change_mac]
  constructor
  · intro h
    rw [List.any_eq_true]
    by_contra hc
    push_neg at hc
    have : (change_mac_cmds is_linux interface new_mac).all
        (fun c => !(exec c).isRaised) = true := by
      rw [List.all_eq_true]
      intro c hcm
      have := hc c hcm
      simp only [Bool.not_eq_true] at this ⊢
      simp [this]
    rw [this] at h
    simp at h
  · intro h
    rw [List.any_eq_true] at h
    obtain ⟨c, hcm, hr⟩ := h
    by_contra hall
    simp only [Bool.not_eq_false, List.all_eq_true] at hall
    have := hall c hcm
    simp [hr] at this

/-- C1 witness: on an executor that raises for every command, `change_mac`
returns False. -/
theorem c1_witness :
    change_mac execRaise true (str "eth0") (str "00:11:22:33:44:55") = false :=
  (c1_amended execRaise true (str "eth0") (str "00:11:22:33:44:55")).mpr (by decide)

/-- C2 counterexample: a tick with no interruption on which `get_mac`
returns None terminates the rotation loop (uncaught AttributeError from
`current.lower()`), so an external interruption signal is not the only
condition under which a tick terminates the loop. -/
theorem c2_counterexample :
    rotate_run [⟨false, none, []⟩] = RotOutcome.error ∧
    ([(⟨false, none, []⟩ : TickEnv)].any (fun e => e.interrupt)) = false :=
  ⟨rfl, rfl⟩

/-- C2 amended: the rotation loop returns normally (reporting the stop)
only when an interruption signal arrives at some tick; in addition it
terminates abnormally, by an uncaught exception, only when some tick's
read of the current address yields None.  No other condition ends the
loop. -/
theorem c2_amended (envs : List TickEnv) :
    (rotate_run envs = RotOutcome.stopped →
      envs.any (fun e => e.interrupt) = true) ∧
    (rotate_run envs = RotOutcome.error →
      envs.any (fun e => e.current.isNone) = true) := by
  induction envs with
  | nil => simp [rotate_run]
  | cons e rest ih =>
    cases hi : e.interrupt with
    | true =>
      constructor
      · intro _
        simp [List.any_cons, hi]
      · intro h
        simp [rotate_run, hi] at h
    | false =>
      cases hc : e.current with
      | none =>
        constructor
        · intro h
          simp [rotate_run, hi, hc] at h
        · intro _
          simp [List.any_cons, hc]
      | some cur =>
        cases hr : regen cur e.candidates with
        | none =>
          constructor <;> intro h <;> simp [rotate_run, hi, hc, hr] at h
        | some m =>
          have hstep : rotate_run (e :: rest) = rotate_run rest := by
            simp [rotate_run, hi, hc, hr]
          constructor
          · intro h
            rw [hstep] at h
            simp [List.any_cons, ih.1 h]
          · intro h
            rw [hstep] at h
            simp [List.any_cons, ih.2 h]

/-- C2 witness: a run stopped by an interrupt at its first tick indeed
contains an interrupted tick. -/
theorem c2_witness :
    ([(⟨true, some (str "aa:bb:cc:dd:ee:ff"), []⟩ : TickEnv)].any
      (fun e => e.interrupt)) = true :=
  (c2_amended [⟨true, some (str "aa:bb:cc:dd:ee:ff"), []⟩]).1 rfl

/-- C3 counterexample: with the backup file absent, `restore_mac` reports
"Restore failed" (the caught open/load exception), not "no backup found",
contrary to the claim; no mutation command is invoked. -/
theorem c3_counterexample :
    (restore_mac FileState.absent (str "eth0")).msg = RestoreMsg.restoreFailed ∧
    (restore_mac FileState.absent (str "eth0")).msg ≠ RestoreMsg.noBackup ∧
    (restore_mac FileState.absent (str "eth0")).mutated = none :=
  ⟨rfl, by decide, rfl⟩

/-- C3 amended: `restore_mac` never raises to its caller.  When the backup
file is absent or unreadable it reports "Restore failed" (not "no backup
found"); when the file loads but lacks a key for the interface it reports
"no backup found"; in both cases zero mutation commands are invoked.
Otherwise it invokes the Mutator with exactly the stored original
address. -/
theorem c3_amended (fs : FileState) (interface : PyStr) (d : BackupData)
    (q : PyStr × BackupRec) :
    ((fs = FileState.absent ∨ fs = FileState.corrupt) →
      restore_mac fs interface = ⟨RestoreMsg.restoreFailed, none⟩) ∧
    (fs = FileState.good d → d.find? (fun p => p.1 == interface) = none →
      restore_mac fs interface = ⟨RestoreMsg.noBackup, none⟩) ∧
    (fs = FileState.good d → d.find? (fun p => p.1 == interface) = some q →
      restore_mac fs interface =
        ⟨RestoreMsg.restored q.2.original_mac, some q.2.original_mac⟩) := by
  refine ⟨fun h => ?_, fun h hf => ?_, fun h hf => ?_⟩
  · rcases h with h | h <;> subst h <;> rfl
  · subst h
    simp [restore_mac, hf]
  · subst h
    simp [restore_mac, hf]

/-- C3 witness: instantiated at the absent file state. -/
theorem c3_witness :
    restore_mac FileState.absent (str "eth0") = ⟨RestoreMsg.restoreFailed, none⟩ :=
  (c3_amended FileState.absent (str "eth0") [] ⟨[], ⟨[], []⟩⟩).1 (Or.inl rfl)

/-- C5: from any loadable backup-file state, backing up interface eth0
with address aa:bb:cc:dd:ee:ff and then restoring eth0 passes exactly
aa:bb:cc:dd:ee:ff to the Mutator. -/
theorem c5_backup_restore_roundtrip (fs : FileState) (now : PyStr)
    (h : fs ≠ FileState.corrupt) :
    (restore_mac
      (backup_mac fs (str "eth0") (str "aa:bb:cc:dd:ee:ff") now).1
      (str "eth0")).mutated = some (str "aa:bb:cc:dd:ee:ff") := by
  cases fs with
  | corrupt => exact absurd rfl h
  | absent =>
    simp [backup_mac, restore_mac, dictSet, List.find?]
  | good d =>
    simp only [backup_mac, restore_mac]
    rw [find?_dictSet_self d (str "eth0") ⟨str "aa:bb:cc:dd:ee:ff", now⟩]

/-- C5 witness: instantiated at the absent file state. -/
theorem c5_witness :
    (restore_mac
      (backup_mac FileState.absent (str "eth0") (str "aa:bb:cc:dd:ee:ff")
        (str "2026-10-12")).1
      (str "eth0")).mutated = some (str "aa:bb:cc:dd:ee:ff") :=
  c5_backup_restore_roundtrip FileState.absent (str "2026-10-12") (by decide)

/-- C6: whenever the regeneration loop (shared by the one-shot change and
every rotation tick) produces an address to apply, that address differs
from the current address under case-insensitive comparison; in particular
any address the one-shot CLI path passes to `change_mac` differs
case-insensitively from the current one. -/
theorem c6_regen_differs :
    (∀ (cur : PyStr) (pool : List PyStr) (a : PyStr),
      regen cur pool = some a → lower a ≠ lower cur) ∧
    (∀ (exec : PyStr → ExecOutcome) (is_linux : Bool)
      (interface : PyStr) (argsMac : Option PyStr) (cur : PyStr)
      (randoms : List PyStr) (a : PyStr),
      (cli_oneshot exec is_linux interface argsMac (some cur) randoms).applied
        = some a → lower a ≠ lower cur) := by
  have h1 : ∀ (cur : PyStr) (pool : List PyStr) (a : PyStr),
      regen cur pool = some a → lower a ≠ lower cur := by
    intro cur pool
    induction pool with
    | nil => intro a h; exact absurd h (by simp [regen])
    | cons m rest ih =>
      intro a h
      rw [regen] at h
      by_cases hm : lower m = lower cur
      · rw [if_pos hm] at h
        exact ih a h
      · rw [if_neg hm] at h
        cases h
        exact hm
  refine ⟨h1, ?_⟩
  intro exec is_linux interface argsMac cur randoms a h
  rw [cli_oneshot] at h
  by_cases hok : macFormatOk argsMac
  · rw [if_pos hok] at h
    cases hr : regen cur (initialPool argsMac randoms) with
    | none => rw [hr] at h; exact absurd h (by simp)
    | some b =>
      rw [hr] at h
      have hab : b = a := by
        by_cases hcm : change_mac exec is_linux interface b = true
        · simp [hcm] at h
          exact h
        · simp [hcm] at h
          exact h
      exact hab ▸ h1 cur (initialPool argsMac randoms) b hr
  · rw [if_neg hok] at h
    exact absurd h (by simp)

/-- C6 witness: a concrete regeneration run skips the case-variant of the
current address and applies a genuinely different one. -/
theorem c6_witness :
    lower (str "00:40:96:aa:00:11") ≠ lower (str "ac:de:48:12:34:56") :=
  c6_regen_differs.1 (str "ac:de:48:12:34:56")
    [str "AC:DE:48:12:34:56", str "00:40:96:aa:00:11"]
    (str "00:40:96:aa:00:11") (by decide)

/-- C9: for every loadable backup-file state, backing up the same
interface twice leaves exactly one record for that interface, holding the
most recently supplied address, and leaves every other interface's record
unchanged. -/
theorem c9_backup_overwrite (fs : FileState) (interface j mac1 mac2 now1 now2 : PyStr)
    (hw : fs ≠ FileState.corrupt)
    (hnd : ((fsData fs).map Prod.fst).Nodup)
    (hj : j ≠ interface) :
    ((fsData (backup_mac (backup_mac fs interface mac1 now1).1 interface mac2 now2).1).filter
        (fun q => q.1 == interface) = [(interface, ⟨mac2, now2⟩)]) ∧
    ((fsData (backup_mac (backup_mac fs interface mac1 now1).1 interface mac2 now2).1).find?
        (fun q => q.1 == j) = (fsData fs).find? (fun q => q.1 == j)) := by
  have hb : (backup_mac fs interface mac1 now1).1 =
      FileState.good (dictSet (fsData fs) interface ⟨mac1, now1⟩) := by
    cases fs with
    | corrupt => exact absurd rfl hw
    | absent => rfl
    | good d => rfl
  rw [hb]
  constructor
  · exact filter_dictSet_self _ interface ⟨mac2, now2⟩
      (nodup_keys_dictSet _ interface ⟨mac1, now1⟩ hnd)
  · rw [show fsData (backup_mac (FileState.good (dictSet (fsData fs) interface ⟨mac1, now1⟩)) interface mac2 now2).1 = dictSet (dictSet (fsData fs) interface ⟨mac1, now1⟩) interface ⟨mac2, now2⟩ from rfl]
    rw [find?_dictSet_other _ interface j _ hj, find?_dictSet_other _ interface j _ hj]

/-- C9 witness: instantiated at a one-record mapping for another
interface. -/
theorem c9_witness :
    ((fsData (backup_mac (backup_mac
        (FileState.good [(str "wlan0", ⟨str "11:22:33:44:55:66", str "t0"⟩)])
        (str "eth0") (str "aa:aa:aa:aa:aa:aa") (str "t1")).1
        (str "eth0") (str "bb:bb:bb:bb:bb:bb") (str "t2")).1).filter
        (fun q => q.1 == str "eth0") =
      [(str "eth0", ⟨str "bb:bb:bb:bb:bb:bb", str "t2"⟩)]) ∧
    ((fsData (backup_mac (backup_mac
        (FileState.good [(str "wlan0", ⟨str "11:22:33:44:55:66", str "t0"⟩)])
        (str "eth0") (str "aa:aa:aa:aa:aa:aa") (str "t1")).1
        (str "eth0") (str "bb:bb:bb:bb:bb:bb") (str "t2")).1).find?
        (fun q => q.1 == str "wlan0") =
      (fsData (FileState.good [(str "wlan0", ⟨str "11:22:33:44:55:66", str "t0"⟩)])).find?
        (fun q => q.1 == str "wlan0")) :=
  c9_backup_overwrite
    (FileState.good [(str "wlan0", ⟨str "11:22:33:44:55:66", str "t0"⟩)])
    (str "eth0") (str "wlan0") (str "aa:aa:aa:aa:aa:aa") (str "bb:bb:bb:bb:bb:bb")
    (str "t1") (str "t2") (by decide) (by decide) (by decide)

/-- C7: `get_vendor` is a deterministic total function: every input maps to
a configured vendor name or the literal "Unknown", and inputs equal up to
letter case (equal after uppercasing) yield the same vendor. -/
theorem c7_get_vendor_total_case_insensitive :
    (∀ mac : PyStr, get_vendor mac = str "Unknown" ∨
      get_vendor mac ∈ [str "Dell", str "Cisco", str "Private"]) ∧
    (∀ s t : PyStr, upper s = upper t → get_vendor s = get_vendor t) := by
  constructor
  · intro mac
    rw [get_vendor]
    cases hf : VENDOR_PREFIXES.find? (fun p => p.1 == macPrefix3 mac) with
    | none => exact Or.inl rfl
    | some p =>
      have hm := List.mem_of_find?_eq_some hf
      right
      simp only [VENDOR_PREFIXES, List.mem_cons, List.not_mem_nil, or_false] at hm
      rcases hm with rfl | rfl | rfl <;> simp
  · intro s t h
    simp only [get_vendor, macPrefix3, h]

/-- C7 witness: a lowercase address and its uppercase variant resolve to
the same vendor. -/
theorem c7_witness :
    get_vendor (str "aa:bb:cc:dd:ee:ff") = get_vendor (str "AA:BB:CC:DD:EE:FF") :=
  c7_get_vendor_total_case_insensitive.2
    (str "aa:bb:cc:dd:ee:ff") (str "AA:BB:CC:DD:EE:FF") (by decide)

theorem isHexPairSpec_shape (p : List Char) (h : isHexPairSpec p = true) :
    ∃ a b, p = [a, b] ∧ isHexDigitPy a = true ∧ isHexDigitPy b = true := by
  cases p with
  | nil => simp [isHexPairSpec] at h
  | cons a t =>
    cases t with
    | nil => simp [isHexPairSpec] at h
    | cons b t2 =>
      cases t2 with
      | nil =>
        simp only [isHexPairSpec, Bool.and_eq_true] at h
        exact ⟨a, b, rfl, h.1, h.2⟩
      | cons c t3 => simp [isHexPairSpec] at h

theorem isHexPairSpec_pair (a b : Char) (ha : isHexDigitPy a = true)
    (hb : isHexDigitPy b = true) : isHexPairSpec [a, b] = true := by
  simp [isHexPairSpec, ha, hb]

theorem hex_ne_colon (c : Char) (h : isHexDigitPy c = true) : c ≠ ':' := by
  intro hc
  subst hc
  exact absurd h (by decide)

theorem hex_ne_nl (c : Char) (h : isHexDigitPy c = true) : c ≠ Char.ofNat 10 := by
  intro hc
  subst hc
  exact absurd h (by decide)

theorem isHexPairSpec_no_colon (p : List Char) (h : isHexPairSpec p = true) :
    ':' ∉ p := by
  obtain ⟨a, b, rfl, ha, hb⟩ := isHexPairSpec_shape p h
  intro hm
  simp only [List.mem_cons, List.not_mem_nil, or_false] at hm
  rcases hm with h1 | h1
  · exact hex_ne_colon a ha h1.symm
  · exact hex_ne_colon b hb h1.symm

theorem matchHexPair_eq_some (l r : List Char) :
    matchHexPair l = some r ↔
      ∃ a b, isHexDigitPy a = true ∧ isHexDigitPy b = true ∧ l = a :: b :: r := by
  constructor
  · intro h
    cases l with
    | nil => simp [matchHexPair] at h
    | cons a t =>
      cases t with
      | nil => simp [matchHexPair] at h
      | cons b rest =>
        simp only [matchHexPair] at h
        by_cases hab : (isHexDigitPy a && isHexDigitPy b) = true
        · rw [if_pos hab] at h
          rw [Bool.and_eq_true] at hab
          have hr := Option.some.inj h
          subst hr
          exact ⟨a, b, hab.1, hab.2, rfl⟩
        · rw [if_neg hab] at h
          exact absurd h (by simp)
  · rintro ⟨a, b, ha, hb, rfl⟩
    simp [matchHexPair, ha, hb]

theorem matchHexPairColon_eq_some (l r : List Char) :
    matchHexPairColon l = some r ↔
      ∃ a b, isHexDigitPy a = true ∧ isHexDigitPy b = true ∧ l = a :: b :: ':' :: r := by
  rw [matchHexPairColon]
  cases hm : matchHexPair l with
  | none =>
    constructor
    · intro h
      exact absurd h (by simp)
    · rintro ⟨a, b, ha, hb, rfl⟩
      simp [matchHexPair, ha, hb] at hm
  | some m =>
    cases m with
    | nil =>
      constructor
      · intro h
        exact absurd h (by simp)
      · rintro ⟨a, b, ha, hb, rfl⟩
        simp [matchHexPair, ha, hb] at hm
    | cons c rest =>
      constructor
      · intro h
        have h2 : (if c = ':' then some rest else none) = some r := h
        by_cases hc : c = ':'
        · subst hc
          rw [if_pos rfl] at h2
          have hr := Option.some.inj h2
          subst hr
          obtain ⟨a, b, ha, hb, hl⟩ := (matchHexPair_eq_some l (':' :: rest)).mp hm
          exact ⟨a, b, ha, hb, hl⟩
        · rw [if_neg hc] at h2
          exact absurd h2 (by simp)
      · rintro ⟨a, b, ha, hb, rfl⟩
        show (if c = ':' then some rest else none) = some r
        simp only [matchHexPair, Bool.and_eq_true, ha, hb, and_self, if_true,
          Option.some.injEq, List.cons.injEq] at hm
        obtain ⟨hc, hrest⟩ := hm
        subst hc
        subst hrest
        rw [if_pos rfl]

theorem matchRepPairColon_eq_some (n : Nat) (r : List Char) : ∀ l : List Char,
    matchRepPairColon n l = some r ↔
      ∃ ps : List (List Char), ps.length = n ∧
        (∀ p ∈ ps, isHexPairSpec p = true) ∧ l = ps.foldr glueColon r := by
  induction n with
  | zero =>
    intro l
    constructor
    · intro h
      have hl := Option.some.inj h
      exact ⟨[], rfl, by simp, hl.symm ▸ rfl⟩
    · rintro ⟨ps, hlen, hall, rfl⟩
      rw [List.length_eq_zero] at hlen
      subst hlen
      rfl
  | succ n ih =>
    intro l
    constructor
    · intro h
      have h2 : (match matchHexPairColon l with
          | some r1 => matchRepPairColon n r1
          | none => none) = some r := h
      cases hm : matchHexPairColon l with
      | none =>
        rw [hm] at h2
        exact absurd h2 (by simp)
      | some r1 =>
        rw [hm] at h2
        obtain ⟨ps, hlen, hall, hl⟩ := (ih r1).mp h2
        obtain ⟨a, b, ha, hb, hl2⟩ := (matchHexPairColon_eq_some l r1).mp hm
        refine ⟨[a, b] :: ps, by simp [hlen], ?_, ?_⟩
        · intro p hp
          rcases List.mem_cons.mp hp with rfl | hp2
          · exact isHexPairSpec_pair a b ha hb
          · exact hall p hp2
        · rw [hl2, hl]
          rfl
    · rintro ⟨ps, hlen, hall, rfl⟩
      cases ps with
      | nil => simp at hlen
      | cons p ps2 =>
        obtain ⟨a, b, rfl, ha, hb⟩ := isHexPairSpec_shape p (hall p (by simp))
        have hm : matchHexPairColon (([a, b] :: ps2).foldr glueColon r) =
            some (ps2.foldr glueColon r) := by
          rw [matchHexPairColon_eq_some]
          exact ⟨a, b, ha, hb, rfl⟩
        show (match matchHexPairColon (([a, b] :: ps2).foldr glueColon r) with
          | some r1 => matchRepPairColon n r1
          | none => none) = some r
        rw [hm]
        refine (ih (ps2.foldr glueColon r)).mpr ⟨ps2, ?_, ?_, rfl⟩
        · simpa using hlen
        · intro p hp
          exact hall p (List.mem_cons_of_mem _ hp)

theorem regexMacMatch_eq_some (l r : List Char) :
    regexMacMatch l = some r ↔
      ∃ (ps : List (List Char)) (p6 : List Char),
        ps.length = 5 ∧ (∀ p ∈ ps, isHexPairSpec p = true) ∧
        isHexPairSpec p6 = true ∧ l = ps.foldr glueColon (p6 ++ r) := by
  rw [regexMacMatch]
  cases hm : matchRepPairColon 5 l with
  | none =>
    constructor
    · intro h
      exact absurd h (by simp)
    · rintro ⟨ps, p6, hlen, hall, hp6, rfl⟩
      have h5 : matchRepPairColon 5 (ps.foldr glueColon (p6 ++ r)) = some (p6 ++ r) :=
        (matchRepPairColon_eq_some 5 (p6 ++ r) _).mpr ⟨ps, hlen, hall, rfl⟩
      rw [h5] at hm
      exact absurd hm (by simp)
  | some m =>
    constructor
    · intro h
      obtain ⟨ps, hlen, hall, hl⟩ := (matchRepPairColon_eq_some 5 m l).mp hm
      obtain ⟨a, b, ha, hb, hm2⟩ := (matchHexPair_eq_some m r).mp h
      refine ⟨ps, [a, b], hlen, hall, isHexPairSpec_pair a b ha hb, ?_⟩
      rw [hl, hm2]
      rfl
    · rintro ⟨ps, p6, hlen, hall, hp6, rfl⟩
      have h5 : matchRepPairColon 5 (ps.foldr glueColon (p6 ++ r)) = some (p6 ++ r) :=
        (matchRepPairColon_eq_some 5 (p6 ++ r) _).mpr ⟨ps, hlen, hall, rfl⟩
      rw [h5] at hm
      have hmm := Option.some.inj hm
      subst hmm
      obtain ⟨a, b, rfl, ha, hb⟩ := isHexPairSpec_shape p6 hp6
      show matchHexPair (a :: b :: r) = some r
      simp [matchHexPair, ha, hb]

theorem canonical_foldr_pairs (ps : List (List Char)) (p6 : List Char)
    (hlen : ps.length = 5) (hall : ∀ p ∈ ps, isHexPairSpec p = true)
    (hp6 : isHexPairSpec p6 = true) :
    canonical_mac_spec (ps.foldr glueColon p6) = true := by
  rw [← joinColon_eq_foldr]
  have hsplit : splitColon (joinColon (ps ++ [p6])) = ps ++ [p6] := by
    apply splitColon_joinColon
    · simp
    · intro q hq
      rcases List.mem_append.mp hq with h2 | h2
      · exact isHexPairSpec_no_colon q (hall q h2)
      · rw [List.mem_singleton] at h2
        subst h2
        exact isHexPairSpec_no_colon q hp6
  rw [canonical_mac_spec, hsplit, Bool.and_eq_true]
  constructor
  · simp [List.length_append, hlen]
  · rw [List.all_eq_true]
    intro q hq
    rcases List.mem_append.mp hq with h2 | h2
    · exact hall q h2
    · rw [List.mem_singleton] at h2
      subst h2
      exact hp6

theorem canonical_decomp (t : PyStr) (h : canonical_mac_spec t = true) :
    ∃ (ps : List (List Char)) (p6 : List Char),
      ps.length = 5 ∧ (∀ p ∈ ps, isHexPairSpec p = true) ∧
      isHexPairSpec p6 = true ∧ t = ps.foldr glueColon p6 := by
  rw [canonical_mac_spec, Bool.and_eq_true] at h
  obtain ⟨hlen, hall⟩ := h
  rw [List.all_eq_true] at hall
  have hlen6 : (splitColon t).length = 6 := by simpa using hlen
  have hne : splitColon t ≠ [] := by
    intro hnil
    rw [hnil] at hlen6
    simp at hlen6
  refine ⟨(splitColon t).dropLast, (splitColon t).getLast hne, ?_, ?_, ?_, ?_⟩
  · rw [List.length_dropLast, hlen6]
  · intro p hp
    exact hall p (List.dropLast_subset _ hp)
  · exact hall _ (List.getLast_mem hne)
  · rw [← joinColon_eq_foldr, List.dropLast_append_getLast hne]
    exact (joinColon_splitColon t).symm

theorem getLast?_foldr_glue (ps : List (List Char)) (base : List Char)
    (h : base ≠ []) : (ps.foldr glueColon base).getLast? = base.getLast? := by
  induction ps with
  | nil => rfl
  | cons p ps ih =>
    show (p ++ ':' :: ps.foldr glueColon base).getLast? = _
    rw [List.getLast?_append_of_ne_nil p (by simp)]
    rw [show (':' :: ps.foldr glueColon base) = [':'] ++ ps.foldr glueColon base from rfl]
    rw [List.getLast?_append_of_ne_nil [':'] (foldr_glue_ne_nil ps base h)]
    exact ih

theorem valid_mac_iff_canonical (s : PyStr) :
    valid_mac s = true ↔ canonical_mac_spec (stripTrailingNl s) = true := by
  constructor
  · intro h
    rw [valid_mac] at h
    cases hm : regexMacMatch s with
    | none =>
      rw [hm] at h
      exact absurd h (by simp)
    | some rest =>
      rw [hm] at h
      have hrest : rest = [] ∨ rest = [Char.ofNat 10] := by
        rcases Bool.or_eq_true_iff.mp h with h2 | h2
        · exact Or.inl (by simpa using h2)
        · exact Or.inr (by simpa using h2)
      rcases hrest with rfl | rfl
      · obtain ⟨ps, p6, hlen, hall, hp6, hl⟩ := (regexMacMatch_eq_some s []).mp hm
        rw [List.append_nil] at hl
        have hglast : s.getLast? ≠ some (Char.ofNat 10) := by
          obtain ⟨a, b, hp6ab, ha, hb⟩ := isHexPairSpec_shape p6 hp6
          rw [hl, hp6ab, getLast?_foldr_glue ps [a, b] (by simp)]
          intro hcc
          have : b = Char.ofNat 10 := by simpa using hcc
          exact hex_ne_nl b hb this
        rw [stripTrailingNl, if_neg hglast, hl]
        exact canonical_foldr_pairs ps p6 hlen hall hp6
      · obtain ⟨ps, p6, hlen, hall, hp6, hl⟩ :=
          (regexMacMatch_eq_some s [Char.ofNat 10]).mp hm
        have hs2 : s = (ps.foldr glueColon p6) ++ [Char.ofNat 10] := by
          rw [foldr_glue_append]
          exact hl
        have hglast : s.getLast? = some (Char.ofNat 10) := by
          rw [hs2, List.getLast?_append_of_ne_nil _ (by simp)]
          rfl
        rw [stripTrailingNl, if_pos hglast, hs2, List.dropLast_concat]
        exact canonical_foldr_pairs ps p6 hlen hall hp6
  · intro h
    obtain ⟨ps, p6, hlen, hall, hp6, ht⟩ := canonical_decomp (stripTrailingNl s) h
    by_cases hg : s.getLast? = some (Char.ofNat 10)
    · have hs : s = stripTrailingNl s ++ [Char.ofNat 10] := by
        rw [stripTrailingNl, if_pos hg]
        exact (List.dropLast_append_getLast? _ hg).symm
      have hre : regexMacMatch s = some [Char.ofNat 10] :=
        (regexMacMatch_eq_some s [Char.ofNat 10]).mpr
          ⟨ps, p6, hlen, hall, hp6, by rw [hs, ht, foldr_glue_append]⟩
      simp [valid_mac, hre]
    · have hs : stripTrailingNl s = s := by
        rw [stripTrailingNl, if_neg hg]
      have hre : regexMacMatch s = some [] :=
        (regexMacMatch_eq_some s []).mpr
          ⟨ps, p6, hlen, hall, hp6, by rw [← hs, ht, List.append_nil]⟩
      simp [valid_mac, hre]

/-- C4 counterexample: the CLI validation accepts the string
"00:11:22:33:44:55" followed by a newline (Python's `$` matches just
before a trailing newline), although that string does not consist of
exactly six 2-digit hex pairs joined by colons. -/
theorem c4_counterexample :
    valid_mac (str "00:11:22:33:44:55" ++ [Char.ofNat 10]) = true ∧
    canonical_mac_spec (str "00:11:22:33:44:55" ++ [Char.ofNat 10]) = false := by
  constructor
  · decide
  · decide

/-- C4 amended: the CLI validation accepts a user-supplied address string
iff the string, after discarding at most one trailing newline, consists of
exactly six 2-digit hex pairs joined by colons (so it accepts
"00:11:22:33:44:55", rejects "00:11:22:33:44", "00-11-22-33-44-55" and
"gg:11:22:33:44:55", but also accepts the canonical form followed by one
newline); on rejection the CLI reports an error and returns with no
mutation attempted. -/
theorem c4_amended (s : PyStr) (exec : PyStr → ExecOutcome) (is_linux : Bool)
    (interface : PyStr) (current : Option PyStr) (randoms : List PyStr) :
    (valid_mac s = true ↔ canonical_mac_spec (stripTrailingNl s) = true) ∧
    (valid_mac s = false →
      cli_oneshot exec is_linux interface (some s) current randoms =
        ⟨OneShotMsg.invalidFormat, none⟩) := by
  constructor
  · exact valid_mac_iff_canonical s
  · intro h
    simp [cli_oneshot, macFormatOk, h]

/-- C4 witness: a dash-separated address is rejected and the CLI aborts
with no mutation attempted. -/
theorem c4_witness :
    cli_oneshot execExit1 true (str "eth0") (some (str "00-11-22-33-44-55"))
      (some (str "aa:bb:cc:dd:ee:ff")) [] = ⟨OneShotMsg.invalidFormat, none⟩ :=
  (c4_amended (str "00-11-22-33-44-55") execExit1 true (str "eth0")
    (some (str "aa:bb:cc:dd:ee:ff")) []).2 (by decide)

theorem canonical_join_parts (qs : List (List Char)) (hlen : qs.length = 6)
    (hall : ∀ q ∈ qs, isHexPairSpec q = true) :
    canonical_mac_spec (joinColon qs) = true := by
  have hsplit : splitColon (joinColon qs) = qs := by
    apply splitColon_joinColon
    · intro hq
      rw [hq] at hlen
      simp at hlen
    · intro q hq
      exact isHexPairSpec_no_colon q (hall q hq)
  rw [canonical_mac_spec, hsplit, Bool.and_eq_true]
  exact ⟨by simp [hlen], List.all_eq_true.mpr hall⟩

set_option maxRecDepth 4000 in
/-- C8: every address returned by `random_mac` — a vendor prefix of three
octets followed by three random octets rendered as 2-digit hex — consists
of exactly six colon-separated 2-digit hexadecimal octets. -/
theorem c8_random_mac_canonical (ki : Fin vendorKeys.length) (r1 r2 r3 : Fin 256) :
    canonical_mac_spec (random_mac ki r1 r2 r3) = true := by
  have hhex : ∀ n : Fin 256, isHexPairSpec (hex2 n) = true := by decide
  have hkey : ∀ k : Fin vendorKeys.length,
      (splitColon (vendorKeys.get k)).length = 3 ∧
      ∀ p ∈ splitColon (vendorKeys.get k), isHexPairSpec p = true := by decide
  rw [random_mac]
  apply canonical_join_parts
  · rw [List.length_append, (hkey ki).1]
    rfl
  · intro q hq
    rcases List.mem_append.mp hq with h2 | h2
    · exact (hkey ki).2 q h2
    · simp only [List.mem_cons, List.not_mem_nil, or_false] at h2
      rcases h2 with rfl | rfl | rfl <;> exact hhex _

set_option maxRecDepth 4000 in
/-- C10: the first three octets of every `random_mac` result are one of
the configured vendor-table keys, so `get_vendor` applied to a generated
address always yields a configured vendor name and never "Unknown". -/
theorem c10_random_mac_known_vendor (ki : Fin vendorKeys.length) (r1 r2 r3 : Fin 256) :
    get_vendor (random_mac ki r1 r2 r3) ≠ str "Unknown" ∧
    get_vendor (random_mac ki r1 r2 r3) ∈ [str "Dell", str "Cisco", str "Private"] := by
  have hkeyup : ∀ k : Fin vendorKeys.length,
      ∀ p ∈ (splitColon (vendorKeys.get k)).map upper, ':' ∉ p := by decide
  have hkeylen : ∀ k : Fin vendorKeys.length,
      (splitColon (vendorKeys.get k)).length = 3 := by decide
  have hhexup : ∀ n : Fin 256, ':' ∉ upper (hex2 n) := by decide
  have hpre : macPrefix3 (random_mac ki r1 r2 r3) = upper (vendorKeys.get ki) := by
    rw [macPrefix3, random_mac, upper_joinColon, List.map_append]
    rw [splitColon_joinColon _ (by simp) ?hnc]
    case hnc =>
      intro q hq
      rcases List.mem_append.mp hq with h2 | h2
      · exact hkeyup ki q h2
      · simp only [List.map_cons, List.map_nil, List.mem_cons,
          List.not_mem_nil, or_false] at h2
        rcases h2 with rfl | rfl | rfl <;> exact hhexup _
    rw [List.take_left' (by rw [List.length_map]; exact hkeylen ki)]
    rw [← upper_joinColon, joinColon_splitColon]
  have hv : get_vendor (random_mac ki r1 r2 r3) =
      (match VENDOR_PREFIXES.find?
          (fun p => p.1 == upper (vendorKeys.get ki)) with
        | some p => p.2
        | none => str "Unknown") := by
    rw [get_vendor, hpre]
  have hfin : ∀ k : Fin vendorKeys.length,
      ((match VENDOR_PREFIXES.find?
          (fun p => p.1 == upper (vendorKeys.get k)) with
        | some p => p.2
        | none => str "Unknown") ≠ str "Unknown") ∧
      ((match VENDOR_PREFIXES.find?
          (fun p => p.1 == upper (vendorKeys.get k)) with
        | some p => p.2
        | none => str "Unknown") ∈ [str "Dell", str "Cisco", str "Private"]) := by
    decide
  rw [hv]
  exact hfin ki
